import Mathlib

/-!
Verification of the PyRate atmospheric phase screen (APS) correction module
(src/pyrate/core/aps.py) against its natural-language specification.

The Python float arrays are embedded as functions; a float NaN is embedded
as the value `none` of `Option ℝ` and a finite float as `some x`.  Epoch
indices are natural numbers; a time-series cube is a function from pixel
and epoch indices to `Option ℝ`.  External collaborators (the scipy FFT
routines, scipy griddata interpolation, the covariance/variogram fit, the
epoch-list builder, the raster storage layer) are embedded either as
explicit mathematical definitions (the discrete Fourier transform) or as
function parameters, following the spec's external-interface contracts.
-/

/- Pixel coordinates are kept abstract for the temporal filter, which the
source applies independently per pixel. -/
variable {P : Type}

/- ---------------------------------------------------------------------
Definitions: temporal low-pass filter (aps.py lines 396-490)
--------------------------------------------------------------------- -/

/-- Gaussian temporal filter weights, from the source line
`gauss = lambda m, yr, cutoff: np.exp(-((yr / cutoff) ** 2) / 2)`. -/
noncomputable def gauss : ℕ → ℝ → ℝ → ℝ :=
  fun _ yr cutoff => Real.exp (-((yr / cutoff) ^ 2) / 2)

/-- Triangular temporal filter weights, from `_triangle`:
`wgt = cutoff - abs(yr); wgt[wgt < 0] = 0`. -/
def _triangle : ℕ → ℝ → ℝ → ℝ :=
  fun _ yr cutoff => max (cutoff - |yr|) 0

/-- Mean temporal filter weights, from
`mean_filter = lambda m, yr, cutoff: np.ones(m)` (each entry is 1). -/
def mean_filter : ℕ → ℝ → ℝ → ℝ :=
  fun _ _ _ => 1

/-- Kernel dispatch in `temporal_low_pass_filter`:
`if method == 1: func = gauss elif method == 2: func = _triangle
else: func = mean_filter`. -/
noncomputable def tlpf_func (method : ℤ) : ℕ → ℝ → ℝ → ℝ :=
  if method = 1 then gauss else if method = 2 then _triangle else mean_filter

/-- Valid (non-NaN) epoch indices of one pixel, in increasing order; embeds
`sel = np.nonzero(nanmat[i, j, :])[0]` where `nanmat = ~isnan(tsincr)`. -/
def selIdx (n : ℕ) (tsincr : P → ℕ → Option ℝ) (p : P) : List ℕ :=
  (List.range n).filter (fun t => (tsincr p t).isSome)

/-- Un-normalized weight vector for output epoch `t` of a pixel with valid
epochs `sel`: the source computes `yr = span[sel] - span[sel[k]]` and
`wgt = func(m, yr, cutoff)` elementwise. -/
noncomputable def tlp_weights (func : ℕ → ℝ → ℝ → ℝ) (cutoff : ℝ) (span : ℕ → ℝ)
    (sel : List ℕ) (t : ℕ) : List ℝ :=
  sel.map (fun u => func sel.length (span u - span t) cutoff)

/-- Normalized weight vector: the source divides by the sum, `wgt /= np.sum(wgt)`. -/
noncomputable def tlp_norm_weights (func : ℕ → ℝ → ℝ → ℝ) (cutoff : ℝ) (span : ℕ → ℝ)
    (sel : List ℕ) (t : ℕ) : List ℝ :=
  (tlp_weights func cutoff span sel t).map
    (fun w => w / (tlp_weights func cutoff span sel t).sum)

/-- Embedding of `_tlpfilter` (aps.py lines 464-490).  The output array is
initialized to all-NaN; a value is written at epoch `t` of pixel `p` only
when the pixel has at least `threshold` valid epochs and `t` is itself a
valid epoch of that pixel, in which case the written value is
`np.sum(tsincr[i, j, sel] * wgt)` with `wgt` the normalized weights.  When
the kernel weight sum is zero the normalization `wgt /= np.sum(wgt)` divides
by zero: the source's kernels are nonnegative, so a zero sum forces every
weight to zero, each normalized weight is the float 0.0/0.0 = NaN, and the
written value is NaN. -/
noncomputable def _tlpfilter (n : ℕ) (cutoff : ℝ) (threshold : ℕ) (span : ℕ → ℝ)
    (tsincr : P → ℕ → Option ℝ) (func : ℕ → ℝ → ℝ → ℝ) : P → ℕ → Option ℝ :=
  fun p t =>
    if threshold ≤ (selIdx n tsincr p).length ∧ t ∈ selIdx n tsincr p then
      if (tlp_weights func cutoff span (selIdx n tsincr p) t).sum = 0 then none
      else
        some (((selIdx n tsincr p).map (fun u => (tsincr p u).getD 0 *
          (func (selIdx n tsincr p).length (span u - span t) cutoff /
            (tlp_weights func cutoff span (selIdx n tsincr p) t).sum))).sum)
    else none

/-- Embedding of `temporal_low_pass_filter` (aps.py lines 396-437): builds the
accumulated-time vector `span = epochlist.spans[:n] + np.diff(spans) / 2`,
dispatches on the configured method and calls `_tlpfilter`. -/
noncomputable def temporal_low_pass_filter (n : ℕ) (tsincr : P → ℕ → Option ℝ)
    (spans : ℕ → ℝ) (cutoff : ℝ) (method : ℤ) (threshold : ℕ) : P → ℕ → Option ℝ :=
  _tlpfilter n cutoff threshold (fun k => spans k + (spans (k + 1) - spans k) / 2)
    tsincr (tlpf_func method)

/- ---------------------------------------------------------------------
Definitions: spatial low-pass filter (aps.py lines 237-392)
--------------------------------------------------------------------- -/

/-- Configuration record for the spatial filter, carrying the parameter
entries `SLPF_NANFILL`, `SLPF_METHOD`, `SLPF_ORDER` and `SLPF_CUTOFF` read by
the source. -/
structure SlpParams where
  nanfill : ℤ
  method : ℤ
  order : ℕ
  cutoff : ℝ

/-- Radially symmetric transfer function used by `_slp_filter`:
Butterworth `1 / (1 + (dist / cutoff) ** (2 * order))` when the spatial
method is 1, Gaussian `exp(-dist ** 2 / (2 * cutoff ** 2))` otherwise. -/
noncomputable def slp_H (method : ℤ) (dist cutoff : ℝ) (order : ℕ) : ℝ :=
  if method = 1 then 1 / (1 + (dist / cutoff) ^ (2 * order))
  else Real.exp (-(dist ^ 2) / (2 * cutoff ^ 2))

/-- Two-dimensional discrete Fourier transform, the mathematical content of
the external `scipy.fftpack.fft2` collaborator. -/
noncomputable def fft2 {r c : ℕ} (A : Fin r → Fin c → ℂ) : Fin r → Fin c → ℂ :=
  fun u v => ∑ i : Fin r, ∑ j : Fin c,
    A i j * Complex.exp (-(2 * (Real.pi : ℂ)) * Complex.I *
      (((u.val * i.val : ℕ) : ℂ) / (r : ℂ) + ((v.val * j.val : ℕ) : ℂ) / (c : ℂ)))

/-- Two-dimensional inverse discrete Fourier transform
(external `scipy.fftpack.ifft2`). -/
noncomputable def ifft2 {r c : ℕ} (A : Fin r → Fin c → ℂ) : Fin r → Fin c → ℂ :=
  fun i j => (∑ u : Fin r, ∑ v : Fin c,
    A u v * Complex.exp ((2 * (Real.pi : ℂ)) * Complex.I *
      (((u.val * i.val : ℕ) : ℂ) / (r : ℂ) + ((v.val * j.val : ℕ) : ℂ) / (c : ℂ)))) /
    ((r : ℂ) * (c : ℂ))

/-- Index roll moving the zero-frequency entry to the array center
(external `scipy.fftpack.fftshift`). -/
def fftshift {r c : ℕ} (A : Fin r → Fin c → ℂ) : Fin r → Fin c → ℂ :=
  fun u v => A ⟨(u.val + (r + 1) / 2) % r, Nat.mod_lt _ u.pos⟩
    ⟨(v.val + (c + 1) / 2) % c, Nat.mod_lt _ v.pos⟩

/-- Inverse index roll (external `scipy.fftpack.ifftshift`). -/
def ifftshift {r c : ℕ} (A : Fin r → Fin c → ℂ) : Fin r → Fin c → ℂ :=
  fun u v => A ⟨(u.val + r / 2) % r, Nat.mod_lt _ u.pos⟩
    ⟨(v.val + c / 2) % c, Nat.mod_lt _ v.pos⟩

/-- Embedding of `_slp_filter` (aps.py lines 345-392): FFT the slice, shift,
multiply by the transfer function built from the pixel-center distance field
(meters converted to km by the factor 1000), inverse-shift, inverse-FFT,
take the real part, then re-apply NaN at positions NaN in the input slice
(`out[np.isnan(phase)] = np.nan`).  In floating point a NaN anywhere in the
slice propagates through `fft2`/`ifft2` to every output entry, which the
second branch makes explicit. -/
noncomputable def _slp_filter {r c : ℕ} (phase : Fin r → Fin c → Option ℝ)
    (cutoff x_size y_size : ℝ) (method : ℤ) (order : ℕ) : Fin r → Fin c → Option ℝ :=
  let cx : ℝ := ((c / 2 : ℕ) : ℝ)
  let cy : ℝ := ((r / 2 : ℕ) : ℝ)
  let dist : Fin r → Fin c → ℝ := fun i j =>
    Real.sqrt ((((j.val : ℝ) - cx) * x_size) ^ 2 + (((i.val : ℝ) - cy) * y_size) ^ 2) / 1000
  let imf := fftshift (fft2 (fun i j => (((phase i j).getD 0 : ℝ) : ℂ)))
  let outf : Fin r → Fin c → ℂ := fun i j =>
    imf i j * ((slp_H method (dist i j) cutoff order : ℝ) : ℂ)
  let out : Fin r → Fin c → ℝ := fun i j => (ifft2 (ifftshift outf) i j).re
  fun i j =>
    if (phase i j).isNone = true then none
    else if ∃ a : Fin r, ∃ b : Fin c, (phase a b).isNone = true then none
    else some (out i j)

/-- Embedding of `_slpfilter` (aps.py lines 311-342): an entirely-NaN slice is
returned unchanged; otherwise the cutoff comes from the configuration, or from
the external covariance fit (`cutoff = 1 / alpha`) when the configured cutoff
is zero, and `_slp_filter` is applied.  The covariance fit
`cvd_from_phase` (seeded with the RDist field) is an external collaborator,
embedded as the parameter `alphaEst`. -/
noncomputable def _slpfilter {r c : ℕ} (phase : Fin r → Fin c → Option ℝ)
    (params : SlpParams) (alphaEst : (Fin r → Fin c → Option ℝ) → ℝ)
    (x_size y_size : ℝ) : Fin r → Fin c → Option ℝ :=
  if ∀ i : Fin r, ∀ j : Fin c, (phase i j).isNone = true then phase
  else
    _slp_filter phase
      (if params.cutoff = 0 then 1 / alphaEst phase else params.cutoff)
      x_size y_size params.method params.order

/-- Embedding of `_interpolate_nans_2d` (aps.py lines 290-308): NaN entries
are assigned the result of the external scattered-data interpolation
(`scipy.interpolate.griddata`, the parameter `interp`), and entries the
interpolation cannot resolve are then zero-filled
(`a[np.isnan(a)] = 0`). -/
def interpolate_nans_2d {r c : ℕ}
    (interp : (Fin r → Fin c → Option ℝ) → Fin r → Fin c → Option ℝ)
    (a : Fin r → Fin c → Option ℝ) : Fin r → Fin c → Option ℝ :=
  fun i j =>
    if (a i j).isSome = true then a i j
    else
      match interp a i j with
      | some v => some v
      | none => some 0

/-- Embedding of `spatial_low_pass_filter` (aps.py lines 237-270).  Before any
slice is filtered the whole cube is NaN-filled in place: zero-filled when
`SLPF_NANFILL == 0` (`ts_lp[np.isnan(ts_lp)] = 0`), otherwise interpolated
per slice by `_interpolate_nans`.  Each epoch slice of the filled cube is
then replaced by `_slpfilter` of that slice. -/
noncomputable def spatial_low_pass_filter {r c n : ℕ}
    (ts_lp : Fin r → Fin c → Fin n → Option ℝ) (params : SlpParams)
    (interp : (Fin r → Fin c → Option ℝ) → Fin r → Fin c → Option ℝ)
    (alphaEst : (Fin r → Fin c → Option ℝ) → ℝ)
    (x_size y_size : ℝ) : Fin r → Fin c → Fin n → Option ℝ :=
  fun i j k =>
    _slpfilter
      (if params.nanfill = 0 then fun a b => some ((ts_lp a b k).getD 0)
       else interpolate_nans_2d interp (fun a b => ts_lp a b k))
      params alphaEst x_size y_size i j

/- ---------------------------------------------------------------------
Definitions: reconstruction of interferograms (aps.py lines 194-234)
--------------------------------------------------------------------- -/

/-- NaN-propagating sum of a list of float values, the behaviour of `np.sum`
over a float vector: NaN if any element is NaN, the arithmetic sum
otherwise. -/
def npSum : List (Option ℝ) → Option ℝ
  | [] => some 0
  | x :: xs => Option.bind x (fun a => Option.bind (npSum xs) (fun b => some (a + b)))

/-- Python slice `f[m:s]` of the epoch axis (empty when `s ≤ m`). -/
def pySlice (f : ℕ → Option ℝ) (m s : ℕ) : List (Option ℝ) :=
  (List.range (s - m)).map (fun t => f (m + t))

/-- Spec-side statement of the reconstruction sum (spec section 4.4): the sum
of cube increments over the half-open epoch index range [m, s), NaN when any
increment in the range is NaN.  This definition follows the words of the spec
and is compared against the slice sum computed by the source. -/
def sum_increments_Ico (f : ℕ → Option ℝ) (m s : ℕ) : Option ℝ :=
  if ∀ t ∈ Finset.Ico m s, (f t).isSome = true then
    some (∑ t in Finset.Ico m s, (f t).getD 0)
  else none

/-- Preread interferogram entry (`shared.PrereadIfg`): only its storage path
is consulted by `_ts_to_ifgs`.  Storage keys and paths are embedded as
natural numbers with their linear order standing for the sort order of the
storage keys. -/
structure PrereadIfg where
  path : ℕ

/-- Insertion into a key-sorted association list. -/
def insertByKey (x : ℕ × PrereadIfg) : List (ℕ × PrereadIfg) → List (ℕ × PrereadIfg)
  | [] => [x]
  | y :: ys => if x.1 ≤ y.1 then x :: y :: ys else y :: insertByKey x ys

/-- Key-sorting of the preread-interferogram dictionary items, embedding
`OrderedDict(sorted(preread_ifgs.items()))`. -/
def sortByKey : List (ℕ × PrereadIfg) → List (ℕ × PrereadIfg)
  | [] => []
  | x :: xs => insertByKey x (sortByKey xs)

/-- In-memory view of an interferogram raster: the phase band and the APS
correction-status metadata tag (`ifc.PYRATE_APS_ERROR`). -/
structure IfgRaster (P : Type) where
  phase_data : P → Option ℝ
  correctionTag : Option String

/-- Metadata value marking a completed APS correction (`ifc.APS_REMOVED`). -/
def APS_REMOVED : String := "APS-removed"

/-- Embedding of `_save_aps_corrected_phase` (aps.py lines 217-234): exactly
the pixels non-NaN in the stored original phase are overwritten with the
supplied reconstructed phase
(`ifg.phase_data[~np.isnan(ifg.phase_data)] = phase[...]`), the
correction-status tag is set to APS_REMOVED, and the returned record is the
raster state persisted by `write_modified_phase`. -/
def _save_aps_corrected_phase (ifg : IfgRaster P) (phase : P → Option ℝ) :
    IfgRaster P :=
  ⟨fun p => if (ifg.phase_data p).isSome = true then phase p else ifg.phase_data p,
    some APS_REMOVED⟩

/-- Reconstructed phase of one interferogram from the corrected time series:
`phase = np.sum(tsincr[:, :, index_master[i]:index_slave[i]], axis=2)`. -/
def reconstructed_phase (tsincr : P → ℕ → Option ℝ) (m s : ℕ) : P → Option ℝ :=
  fun p => npSum (pySlice (tsincr p) m s)

/-- Phase-computation part of `_ts_to_ifgs` (aps.py lines 194-214): the
interferograms are taken in key-sorted order; the i-th one receives master
index `n[i]` and slave index `n[len(ifgs) + i]` from the epoch-list builder
(the external `get_epochs`, whose concatenated index list is the parameter
`nIdx`), and its reconstructed phase is the slice sum over that range. -/
def ts_to_ifgs_phases (tsincr : P → ℕ → Option ℝ)
    (preread : List (ℕ × PrereadIfg)) (nIdx : List ℕ) : List (ℕ × (P → Option ℝ)) :=
  (List.range ((sortByKey preread).map Prod.snd).length).map (fun i =>
    ((((sortByKey preread).map Prod.snd).getD i ⟨0⟩).path,
      reconstructed_phase tsincr (nIdx.getD i 0)
        (nIdx.getD (((sortByKey preread).map Prod.snd).length + i) 0)))

/-- Embedding of `_ts_to_ifgs` (aps.py lines 194-214): every reconstructed
phase is saved into the raster opened from the corresponding path
(the parameter `store` is the external raster layer). -/
def _ts_to_ifgs (tsincr : P → ℕ → Option ℝ)
    (preread : List (ℕ × PrereadIfg)) (nIdx : List ℕ)
    (store : ℕ → IfgRaster P) : List (ℕ × IfgRaster P) :=
  (ts_to_ifgs_phases tsincr preread nIdx).map
    (fun pr => (pr.1, _save_aps_corrected_phase (store pr.1) pr.2))

/- ---------------------------------------------------------------------
Definitions: orchestrator (aps.py lines 39-115)
--------------------------------------------------------------------- -/

/-- Modelled from the spec: `shared.check_correction_status` (module
core.shared) is not under src; per the spec's idempotency short-circuit, the
check reports completion exactly when every interferogram already carries
the "APS-removed" correction-status tag. -/
def check_correction_status (ifgs : List (IfgRaster P)) : Bool :=
  ifgs.all (fun i => i.correctionTag == some APS_REMOVED)

/-- Terminal report of one orchestrator run. -/
inductive WrapStatus
  | notRequired
  | skipped
  | corrected
  deriving DecidableEq

/-- Outcome of one run of the correction wrapper: the report, the resulting
state of every interferogram raster, and whether the SVD time series was
computed during the run. -/
structure WrapResult (P : Type) where
  status : WrapStatus
  rasters : List (ℕ × IfgRaster P)
  tsComputed : Bool

/-- Pointwise NaN-propagating subtraction of time-series cubes
(`ts_hp = tsincr - ts_lp` and `tsincr -= ts_aps`). -/
def cubeSub {r c n : ℕ} (A B : Fin r → Fin c → Fin n → Option ℝ) :
    Fin r → Fin c → Fin n → Option ℝ :=
  fun i j k =>
    Option.bind (A i j k) (fun a => Option.bind (B i j k) (fun b => some (a - b)))

/-- View of a cube as a per-pixel epoch series over natural epoch indices
(out-of-range epochs read NaN), used to pass the cube to the temporal filter
and to the reconstruction. -/
def cubeAsSeries {r c n : ℕ} (A : Fin r → Fin c → Fin n → Option ℝ) :
    (Fin r × Fin c) → ℕ → Option ℝ :=
  fun p t => if h : t < n then A p.1 p.2 ⟨t, h⟩ else none

/-- View of a per-pixel epoch series as a cube. -/
def seriesAsCube {r c n : ℕ} (f : (Fin r × Fin c) → ℕ → Option ℝ) :
    Fin r → Fin c → Fin n → Option ℝ :=
  fun i j k => f (i, j) k.val

/-- Embedding of `spatio_temporal_filter` (aps.py lines 78-115): temporal
low-pass filter of the increment cube, high-pass residual by subtraction,
spatial low-pass filter of the residual, subtraction of the atmospheric
estimate from the original increments, then reconstruction and persistence
of every interferogram. -/
noncomputable def spatio_temporal_filter {r c n : ℕ}
    (tsincr : Fin r → Fin c → Fin n → Option ℝ)
    (preread : List (ℕ × PrereadIfg)) (nIdx : List ℕ)
    (store : ℕ → IfgRaster (Fin r × Fin c))
    (spans : ℕ → ℝ) (tcutoff : ℝ) (tmethod : ℤ) (threshold : ℕ)
    (sparams : SlpParams)
    (interp : (Fin r → Fin c → Option ℝ) → Fin r → Fin c → Option ℝ)
    (alphaEst : (Fin r → Fin c → Option ℝ) → ℝ)
    (x_size y_size : ℝ) : List (ℕ × IfgRaster (Fin r × Fin c)) :=
  let ts_lp : Fin r → Fin c → Fin n → Option ℝ :=
    seriesAsCube (temporal_low_pass_filter n (cubeAsSeries tsincr) spans tcutoff
      tmethod threshold)
  let ts_hp := cubeSub tsincr ts_lp
  let ts_aps := spatial_low_pass_filter ts_hp sparams interp alphaEst x_size y_size
  let tsincr2 := cubeSub tsincr ts_aps
  _ts_to_ifgs (cubeAsSeries tsincr2) preread nIdx store

/-- Embedding of `_wrap_spatio_temporal_filter` (aps.py lines 39-76): return
immediately when APS estimation is not enabled; return (reporting the
correction as already done) when the correction-status check succeeds,
without computing the time series and without touching any raster; otherwise
run the full pipeline on the SVD time series.  The time series produced by
`_calc_svd_time_series` is the parameter `tsincr`, as its per-tile values
come from the external SVD solver `time_series`. -/
noncomputable def _wrap_spatio_temporal_filter {r c n : ℕ} (apsest : Bool)
    (paths : List ℕ) (store : ℕ → IfgRaster (Fin r × Fin c))
    (tsincr : Fin r → Fin c → Fin n → Option ℝ)
    (preread : List (ℕ × PrereadIfg)) (nIdx : List ℕ)
    (spans : ℕ → ℝ) (tcutoff : ℝ) (tmethod : ℤ) (threshold : ℕ)
    (sparams : SlpParams)
    (interp : (Fin r → Fin c → Option ℝ) → Fin r → Fin c → Option ℝ)
    (alphaEst : (Fin r → Fin c → Option ℝ) → ℝ)
    (x_size y_size : ℝ) : WrapResult (Fin r × Fin c) :=
  if apsest = false then
    ⟨WrapStatus.notRequired, paths.map (fun p => (p, store p)), false⟩
  else if check_correction_status (paths.map store) = true then
    ⟨WrapStatus.skipped, paths.map (fun p => (p, store p)), false⟩
  else
    ⟨WrapStatus.corrected,
      spatio_temporal_filter tsincr preread nIdx store spans tcutoff tmethod
        threshold sparams interp alphaEst x_size y_size,
      true⟩

/- ---------------------------------------------------------------------
Definitions: tiled time-series assembly (aps.py lines 118-191)
--------------------------------------------------------------------- -/

/-- Consistency errors of the assembly step (spec section 4.1 failure
conditions). -/
inductive AssemblyError
  | missingScratchData
  | shapeMismatch
  deriving DecidableEq

/-- Tile of the raster partition: its index and sub-region geometry. -/
structure Tile where
  index : ℕ
  rowOff : ℕ
  colOff : ℕ
  rows : ℕ
  cols : ℕ

/-- Per-tile incremental time series persisted to scratch storage
(`tsincr_aps_{index}.npy`): its epoch count and its values. -/
structure TileResult where
  epochs : ℕ
  data : ℕ → ℕ → ℕ → ℝ

/-- Full-resolution cube under assembly. -/
def AssemblyCube : Type := ℕ → ℕ → ℕ → ℝ

/-- Copy of one tile's epoch-i slice into its sub-region of the cube. -/
def assemble_epoch_tile (out : AssemblyCube) (t : Tile) (res : TileResult)
    (i : ℕ) : AssemblyCube :=
  fun a b e =>
    if e = i ∧ t.rowOff ≤ a ∧ a < t.rowOff + t.rows ∧ t.colOff ≤ b ∧ b < t.colOff + t.cols
    then res.data (a - t.rowOff) (b - t.colOff) i
    else out a b e

/-- Modelled from the spec: `merge._assemble_tiles` (module merge) is not
under src.  Per the spec's failure conditions, reading one tile during
assembly fails with MissingScratchDataError when the tile's persisted
scratch result is absent, fails with ShapeMismatchError when the tile's
epoch count disagrees with the broadcast value `nvels`, and otherwise copies
the tile's slice into the cube. -/
def assemble_tile_step (scratch : ℕ → Option TileResult) (nvels i : ℕ) (t : Tile)
    (out : AssemblyCube) : Except AssemblyError AssemblyCube :=
  match scratch t.index with
  | none => Except.error AssemblyError.missingScratchData
  | some res =>
    if res.epochs = nvels then Except.ok (assemble_epoch_tile out t res i)
    else Except.error AssemblyError.shapeMismatch

/-- Inner loop of `_assemble_tsincr` over the tiles of one epoch index. -/
def assemble_tiles_loop (scratch : ℕ → Option TileResult) (nvels i : ℕ) :
    List Tile → AssemblyCube → Except AssemblyError AssemblyCube
  | [], out => Except.ok out
  | t :: ts, out =>
    match assemble_tile_step scratch nvels i t out with
    | Except.error e => Except.error e
    | Except.ok out2 => assemble_tiles_loop scratch nvels i ts out2

/-- Outer loop of `_assemble_tsincr` over epoch indices. -/
def assemble_epochs_loop (tiles : List Tile) (scratch : ℕ → Option TileResult)
    (nvels : ℕ) : List ℕ → AssemblyCube → Except AssemblyError AssemblyCube
  | [], out => Except.ok out
  | i :: rest, out =>
    match assemble_tiles_loop scratch nvels i tiles out with
    | Except.error e => Except.error e
    | Except.ok out2 => assemble_epochs_loop tiles scratch nvels rest out2

/-- Embedding of `_assemble_tsincr` (aps.py lines 164-191): the full cube is
preallocated (`np.empty`, embedded as the all-zero cube) and filled
epoch-major, tile-minor from the per-tile scratch results. -/
def _assemble_tsincr (tiles : List Tile) (scratch : ℕ → Option TileResult)
    (nvels : ℕ) : Except AssemblyError AssemblyCube :=
  assemble_epochs_loop tiles scratch nvels (List.range nvels) (fun _ _ _ => 0)

/- ---------------------------------------------------------------------
Definitions: concrete inputs for witnesses and counterexamples
--------------------------------------------------------------------- -/

/-- Concrete pixel for C4: 2 valid epochs out of 2. -/
def ts_c4 : Unit → ℕ → Option ℝ := fun _ t => if t < 2 then some 1 else none

/-- Concrete pixel for C5: all epochs NaN. -/
def ts_c5 : Unit → ℕ → Option ℝ := fun _ _ => none

/-- Concrete pixel for C9: epochs 0 and 1 valid, epoch 2 NaN. -/
def ts_c9 : Unit → ℕ → Option ℝ :=
  fun _ t => if t = 0 then some 1 else if t = 1 then some 2 else none

/-- Concrete pixel for the C9 counterexample: exactly one valid epoch. -/
def ts_c9x : Unit → ℕ → Option ℝ := fun _ t => if t = 0 then some 1 else none

/-- Concrete 1-pixel, 1-epoch cube for C1, NaN everywhere. -/
def cube_c1 : Fin 1 → Fin 1 → Fin 1 → Option ℝ := fun _ _ _ => none

/-- Concrete spatial-filter configuration for C1: zero-fill NaN policy,
Butterworth method, order 1, cutoff 1. -/
def params_c1 : SlpParams := ⟨0, 1, 1, 1⟩

/-- Concrete interpolation collaborator for C1 (never consulted, as the
configuration selects zero-fill). -/
def interp_c1 : (Fin 1 → Fin 1 → Option ℝ) → Fin 1 → Fin 1 → Option ℝ :=
  fun _ _ _ => none

/-- Concrete covariance-fit collaborator for C1 (never consulted, as the
configured cutoff is nonzero). -/
def alpha_c1 : (Fin 1 → Fin 1 → Option ℝ) → ℝ := fun _ => 1

/-- Concrete slice for the C1 amended-claim witness. -/
def phase_c1w : Fin 1 → Fin 1 → Option ℝ := fun _ _ => none

/-- Concrete 1-pixel, 2-epoch cube for C6 whose epoch-0 slice is entirely
NaN while epoch 1 holds a value. -/
def cube_c6 : Fin 1 → Fin 1 → Fin 2 → Option ℝ :=
  fun _ _ k => if k.val = 0 then none else some 5

/-- Concrete spatial-filter configuration for C6: zero-fill NaN policy,
Gaussian method (2), order 1, cutoff 1. -/
def params_c6 : SlpParams := ⟨0, 2, 1, 1⟩

/-- Concrete interpolation collaborator for C6. -/
def interp_c6 : (Fin 1 → Fin 1 → Option ℝ) → Fin 1 → Fin 1 → Option ℝ :=
  fun _ _ _ => none

/-- Concrete covariance-fit collaborator for C6. -/
def alpha_c6 : (Fin 1 → Fin 1 → Option ℝ) → ℝ := fun _ => 1

/-- Concrete entirely-NaN slice for the C6 amended-claim witness. -/
def phase_c6w : Fin 2 → Fin 2 → Option ℝ := fun _ _ => none

/-- Concrete covariance-fit collaborator for the C6 amended-claim witness. -/
def alpha_c6w : (Fin 2 → Fin 2 → Option ℝ) → ℝ := fun _ => 1

/-- Concrete single-pixel time-series cube for C2: increments 2 and 3 at
epoch indices 0 and 1. -/
def ts_c2 : Unit → ℕ → Option ℝ :=
  fun _ t => if t = 0 then some 2 else if t = 1 then some 3 else none

/-- Concrete preread-interferogram dictionary items for C2 (unsorted). -/
def preread_c2 : List (ℕ × PrereadIfg) := [(7, ⟨7⟩), (4, ⟨4⟩)]

/-- Concrete epoch-index list for C2: master indices [0, 1], slave
indices [2, 2]. -/
def nIdx_c2 : List ℕ := [0, 1, 2, 2]

/-- Concrete raster for the C3 witness: pixel `true` valid, pixel `false`
NaN, not yet tagged. -/
def ifg_c3 : IfgRaster Bool := ⟨fun b => if b then some 1 else none, none⟩

/-- Concrete reconstructed phase for the C3 witness. -/
def phase_c3 : Bool → Option ℝ := fun _ => some 9

/-- Concrete raster store for C7: a single already-tagged interferogram. -/
def store_c7 : ℕ → IfgRaster (Fin 1 × Fin 1) :=
  fun _ => ⟨fun _ => some 1, some APS_REMOVED⟩

/-- Concrete time-series cube for C7. -/
def cube_c7 : Fin 1 → Fin 1 → Fin 1 → Option ℝ := fun _ _ _ => some 0

/-- Concrete preread-interferogram items for C7. -/
def preread_c7 : List (ℕ × PrereadIfg) := [(0, ⟨0⟩)]

/-- Concrete spatial-filter configuration for C7. -/
def params_c7 : SlpParams := ⟨0, 1, 1, 1⟩

/-- Concrete interpolation collaborator for C7. -/
def interp_c7 : (Fin 1 → Fin 1 → Option ℝ) → Fin 1 → Fin 1 → Option ℝ :=
  fun _ _ _ => none

/-- Concrete covariance-fit collaborator for C7. -/
def alpha_c7 : (Fin 1 → Fin 1 → Option ℝ) → ℝ := fun _ => 1

/-- Concrete tile for C8. -/
def tile_c8 : Tile := ⟨0, 0, 0, 1, 1⟩

/-- Concrete scratch storage for C8 with every tile result absent. -/
def scratch_c8 : ℕ → Option TileResult := fun _ => none

/- ---------------------------------------------------------------------
Theorems: helper lemmas
--------------------------------------------------------------------- -/

theorem list_sum_div (l : List ℝ) (S : ℝ) :
    (l.map (fun w => w / S)).sum = l.sum / S := by
  induction l with
  | nil => simp
  | cons x xs ih => simp [ih, add_div]

theorem list_sum_map_pos {α : Type} (l : List α) (g : α → ℝ) (a : α)
    (ha : a ∈ l) (hpos : 0 < g a) (hnn : ∀ x ∈ l, 0 ≤ g x) :
    0 < (l.map g).sum := by
  induction l with
  | nil => cases ha
  | cons x xs ih =>
    simp only [List.map_cons, List.sum_cons]
    rcases List.mem_cons.mp ha with h | h
    · have hxs : 0 ≤ (xs.map g).sum := by
        apply List.sum_nonneg
        intro y hy
        rcases List.mem_map.mp hy with ⟨z, hz, rfl⟩
        exact hnn z (List.mem_cons_of_mem _ hz)
      have hx : 0 < g x := h ▸ hpos
      linarith
    · have hx : 0 ≤ g x := hnn x (List.mem_cons_self _ _)
      have := ih h (fun y hy => hnn y (List.mem_cons_of_mem _ hy))
      linarith

/-- Every kernel produced by the dispatch is non-negative everywhere. -/
theorem tlpf_func_nonneg (method : ℤ) (m : ℕ) (yr cutoff : ℝ) :
    0 ≤ tlpf_func method m yr cutoff := by
  unfold tlpf_func
  split
  · exact (Real.exp_pos _).le
  · split
    · exact le_max_right _ _
    · exact zero_le_one

/-- Every kernel produced by the dispatch is positive at time offset 0 when
the cutoff is positive (the offset of the output epoch to itself). -/
theorem tlpf_func_pos_zero (method : ℤ) (m : ℕ) (cutoff : ℝ) (hc : 0 < cutoff) :
    0 < tlpf_func method m 0 cutoff := by
  unfold tlpf_func
  split
  · exact Real.exp_pos _
  · split
    · show 0 < max (cutoff - |(0 : ℝ)|) 0
      rw [abs_zero, sub_zero]
      exact lt_max_iff.mpr (Or.inl hc)
    · exact zero_lt_one

/-- Under a positive cutoff the kernel weight sum at any valid output epoch
is positive: the weight of the output epoch to itself is positive and all
other weights are nonnegative. -/
theorem tlp_weights_sum_pos (method : ℤ) (cutoff : ℝ) (hc : 0 < cutoff)
    (span : ℕ → ℝ) (sel : List ℕ) (t : ℕ) (ht : t ∈ sel) :
    0 < (tlp_weights (tlpf_func method) cutoff span sel t).sum := by
  have hgt : 0 < tlpf_func method sel.length (span t - span t) cutoff := by
    rw [sub_self]
    exact tlpf_func_pos_zero method _ cutoff hc
  unfold tlp_weights
  exact list_sum_map_pos _ _ t ht hgt (fun x _ => tlpf_func_nonneg method _ _ cutoff)

/-- When the kernel weight sum at a filtered output epoch is zero, the weight
normalization divides by zero and the temporal filter writes NaN there. -/
theorem tlpfilter_zero_weight_sum_nan (n : ℕ) (cutoff : ℝ) (threshold : ℕ)
    (span : ℕ → ℝ) (tsincr : P → ℕ → Option ℝ) (func : ℕ → ℝ → ℝ → ℝ)
    (p : P) (t : ℕ)
    (hcond : threshold ≤ (selIdx n tsincr p).length ∧ t ∈ selIdx n tsincr p)
    (hS : (tlp_weights func cutoff span (selIdx n tsincr p) t).sum = 0) :
    _tlpfilter n cutoff threshold span tsincr func p t = none := by
  unfold _tlpfilter
  rw [if_pos hcond, if_pos hS]

/- ---------------------------------------------------------------------
Theorems: claims C4, C5, C9, C10 (temporal filter and method dispatch)
--------------------------------------------------------------------- -/

/-- C4: for every pixel with at least `threshold` valid epochs and every valid
output epoch `t` of that pixel, the normalized temporal-filter weight vector
(kernel weights over the valid epochs divided by their sum) sums to 1, and the
filter output at `t` is the weighted sum of the input values at the valid
epochs using those weights. -/
theorem tlpfilter_weights_normalized (n : ℕ) (cutoff : ℝ) (hc : 0 < cutoff)
    (method : ℤ) (threshold : ℕ) (span : ℕ → ℝ) (tsincr : P → ℕ → Option ℝ)
    (p : P) (t : ℕ)
    (hm : threshold ≤ (selIdx n tsincr p).length)
    (ht : t ∈ selIdx n tsincr p) :
    (tlp_norm_weights (tlpf_func method) cutoff span (selIdx n tsincr p) t).sum = 1 ∧
    _tlpfilter n cutoff threshold span tsincr (tlpf_func method) p t =
      some (((selIdx n tsincr p).map (fun u => (tsincr p u).getD 0 *
        (tlpf_func method (selIdx n tsincr p).length (span u - span t) cutoff /
          (tlp_weights (tlpf_func method) cutoff span (selIdx n tsincr p) t).sum))).sum) := by
  have hS : 0 < (tlp_weights (tlpf_func method) cutoff span (selIdx n tsincr p) t).sum :=
    tlp_weights_sum_pos method cutoff hc span (selIdx n tsincr p) t ht
  constructor
  · unfold tlp_norm_weights
    rw [list_sum_div, div_self (ne_of_gt hS)]
  · unfold _tlpfilter
    rw [if_pos ⟨hm, ht⟩, if_neg (ne_of_gt hS)]

/-- Witness for C4 at a concrete input: a pixel with 2 valid epochs, mean
kernel (method 3), threshold 2, cutoff 1. -/
theorem tlpfilter_weights_normalized_witness :
    (0 : ℝ) < 1 ∧ 2 ≤ (selIdx 2 ts_c4 ()).length ∧
    (tlp_norm_weights (tlpf_func 3) 1 (fun k => (k : ℝ)) (selIdx 2 ts_c4 ()) 0).sum = 1 :=
  ⟨one_pos, by decide,
    (tlpfilter_weights_normalized 2 1 one_pos 3 2 (fun k => (k : ℝ)) ts_c4 () 0
      (by decide) (by decide)).1⟩

/-- C5: a pixel with fewer valid epochs than the configured threshold has its
entire output row left NaN by the temporal low-pass filter (the pixel is not
filtered; this is not an error). -/
theorem temporal_filter_below_threshold_nan (n : ℕ) (tsincr : P → ℕ → Option ℝ)
    (spans : ℕ → ℝ) (cutoff : ℝ) (method : ℤ) (threshold : ℕ) (p : P)
    (h : (selIdx n tsincr p).length < threshold) :
    ∀ t, temporal_low_pass_filter n tsincr spans cutoff method threshold p t = none := by
  intro t
  unfold temporal_low_pass_filter _tlpfilter
  exact if_neg (fun hand => absurd hand.1 (not_le.mpr h))

/-- Witness for C5: an all-NaN pixel (0 valid epochs) with threshold 1. -/
theorem temporal_filter_below_threshold_nan_witness :
    (selIdx 3 ts_c5 ()).length < 1 ∧
    temporal_low_pass_filter 3 ts_c5 (fun k => (k : ℝ)) 1 1 1 () 0 = none :=
  ⟨by decide,
    temporal_filter_below_threshold_nan 3 ts_c5 (fun k => (k : ℝ)) 1 1 1 () (by decide) 0⟩

/-- C9 counterexample: with the triangular kernel (method 2) and cutoff 0, a
pixel with exactly one valid epoch under threshold 1 is filtered, but every
kernel weight is zero, the normalization `wgt /= np.sum(wgt)` divides zero by
zero (the float NaN), and the output at the valid epoch 0 is NaN although the
input there is non-NaN. -/
theorem temporal_filter_valid_epoch_mask_cex :
    1 ≤ (selIdx 1 ts_c9x ()).length ∧ (ts_c9x () 0).isSome = true ∧
    (temporal_low_pass_filter 1 ts_c9x (fun k => (k : ℝ)) 0 2 1 () 0).isSome = false := by
  refine ⟨by decide, rfl, ?_⟩
  unfold temporal_low_pass_filter
  rw [tlpfilter_zero_weight_sum_nan]
  · rfl
  · exact ⟨by decide, by decide⟩
  · have hsel : selIdx 1 ts_c9x () = [0] := by decide
    rw [hsel]
    unfold tlp_weights
    simp only [List.map_cons, List.map_nil, List.sum_cons, List.sum_nil, sub_self, add_zero]
    unfold tlpf_func
    rw [if_neg (by decide), if_pos rfl]
    show max ((0 : ℝ) - |(0 : ℝ)|) 0 = 0
    simp

/-- C9 amended: for a pixel with at least `threshold` valid epochs, provided
the configured cutoff is positive (so the kernel weight sum at every output
epoch is nonzero and the normalization never divides by zero), the temporal
filter output is non-NaN exactly at the epoch indices (below the epoch count)
where the input is non-NaN. -/
theorem temporal_filter_valid_epoch_mask (n : ℕ) (tsincr : P → ℕ → Option ℝ)
    (spans : ℕ → ℝ) (cutoff : ℝ) (hc : 0 < cutoff) (method : ℤ) (threshold : ℕ)
    (p : P) (hm : threshold ≤ (selIdx n tsincr p).length) (t : ℕ) (ht : t < n) :
    (temporal_low_pass_filter n tsincr spans cutoff method threshold p t).isSome =
      (tsincr p t).isSome := by
  unfold temporal_low_pass_filter _tlpfilter
  by_cases hs : (tsincr p t).isSome
  · have hmem : t ∈ selIdx n tsincr p := by
      unfold selIdx
      exact List.mem_filter.mpr ⟨List.mem_range.mpr ht, hs⟩
    have hS : 0 < (tlp_weights (tlpf_func method) cutoff
        (fun k => spans k + (spans (k + 1) - spans k) / 2) (selIdx n tsincr p) t).sum :=
      tlp_weights_sum_pos method cutoff hc
        (fun k => spans k + (spans (k + 1) - spans k) / 2) (selIdx n tsincr p) t hmem
    rw [if_pos ⟨hm, hmem⟩, if_neg (ne_of_gt hS), hs]
    rfl
  · have hns : t ∉ selIdx n tsincr p := by
      unfold selIdx
      intro hmem
      exact hs (List.mem_filter.mp hmem).2
    rw [if_neg (fun hand => hns hand.2)]
    simp only [Option.isSome_none]
    exact ((Bool.not_eq_true _).mp (fun hcon => hs hcon)).symm

/-- Witness for the C9 amended claim: a pixel with valid epochs 0 and 1 out
of 3, threshold 2, cutoff 1, checked at the invalid epoch 2. -/
theorem temporal_filter_valid_epoch_mask_witness :
    (0 : ℝ) < 1 ∧ 2 ≤ (selIdx 3 ts_c9 ()).length ∧
    (temporal_low_pass_filter 3 ts_c9 (fun k => (k : ℝ)) 1 1 2 () 2).isSome =
      (ts_c9 () 2).isSome :=
  ⟨one_pos, by decide,
    temporal_filter_valid_epoch_mask 3 ts_c9 (fun k => (k : ℝ)) 1 one_pos 1 2 ()
      (by decide) 2 (by decide)⟩

/-- C10: the filter-method dispatches have silent fall-through defaults: any
temporal method other than 1 (Gaussian) or 2 (triangular) selects the mean
kernel, and any spatial method other than 1 (Butterworth) selects the Gaussian
transfer function; no method value is rejected. -/
theorem filter_method_dispatch_defaults (mt ms : ℤ)
    (h1 : mt ≠ 1) (h2 : mt ≠ 2) (h3 : ms ≠ 1) :
    tlpf_func mt = mean_filter ∧
    ∀ d cut : ℝ, ∀ o : ℕ, slp_H ms d cut o = Real.exp (-(d ^ 2) / (2 * cut ^ 2)) := by
  constructor
  · unfold tlpf_func
    rw [if_neg h1, if_neg h2]
  · intro d cut o
    unfold slp_H
    rw [if_neg h3]

/-- Witness for C10 at the concrete out-of-range method values 3 and 5, with
the Gaussian transfer function evaluated at distance 2, cutoff 3, order 4. -/
theorem filter_method_dispatch_defaults_witness :
    tlpf_func 3 = mean_filter ∧
    slp_H 5 2 3 4 = Real.exp (-((2 : ℝ) ^ 2) / (2 * (3 : ℝ) ^ 2)) :=
  ⟨(filter_method_dispatch_defaults 3 5 (by decide) (by decide) (by decide)).1,
    (filter_method_dispatch_defaults 3 5 (by decide) (by decide) (by decide)).2 2 3 4⟩

/- ---------------------------------------------------------------------
Theorems: claims C1 and C6 (spatial filter NaN handling)
--------------------------------------------------------------------- -/

/-- C1 counterexample: a cube whose single pixel is NaN in every epoch, passed
to the spatial low-pass filter with the zero-fill NaN policy, yields a non-NaN
value at that pixel: the in-place NaN fill performed by
`spatial_low_pass_filter` before filtering erases the mask that
`_slp_filter` later re-applies, so input NaNs are not preserved. -/
theorem spatial_filter_nan_not_preserved_cex :
    (cube_c1 0 0 0).isNone = true ∧
    (spatial_low_pass_filter cube_c1 params_c1 interp_c1 alpha_c1 1 1 0 0 0).isSome = true := by
  constructor
  · rfl
  · have hfill : (if params_c1.nanfill = 0
        then fun a b => some ((cube_c1 a b 0).getD 0)
        else interpolate_nans_2d interp_c1 (fun a b => cube_c1 a b 0)) =
        fun _ _ => some 0 := by
      rw [if_pos (show params_c1.nanfill = 0 from rfl)]
      funext a b
      rfl
    unfold spatial_low_pass_filter
    rw [hfill]
    unfold _slpfilter
    rw [if_neg (fun h => by simpa using h 0 0)]
    unfold _slp_filter
    simp only [Option.isNone_some]
    rw [if_neg (by simp), if_neg (by rintro ⟨a, b, hab⟩; simp at hab)]
    rfl

/-- C1 amended: `_slp_filter` re-applies the NaN mask of the slice it actually
receives, so any position NaN at call time is NaN in its output; it is the
prior in-place NaN fill in `spatial_low_pass_filter` that prevents this from
applying to the original cube. -/
theorem slp_filter_mask_at_call_time {r c : ℕ} (phase : Fin r → Fin c → Option ℝ)
    (cutoff x_size y_size : ℝ) (method : ℤ) (order : ℕ) (i : Fin r) (j : Fin c)
    (h : (phase i j).isNone = true) :
    (_slp_filter phase cutoff x_size y_size method order i j).isNone = true := by
  unfold _slp_filter
  rw [if_pos h]
  rfl

/-- Witness for the C1 amended claim: a slice whose pixel is NaN stays NaN
through `_slp_filter`. -/
theorem slp_filter_mask_at_call_time_witness :
    (phase_c1w 0 0).isNone = true ∧
    (_slp_filter phase_c1w 1 1 1 1 1 0 0).isNone = true :=
  ⟨rfl, slp_filter_mask_at_call_time phase_c1w 1 1 1 1 1 0 0 rfl⟩

/-- C6 counterexample: a cube whose epoch-0 slice is entirely NaN (single
pixel), passed to the spatial low-pass filter, produces a non-NaN value in the
epoch-0 output slice: the slice is zero-filled before `_slpfilter` runs, so
the all-NaN pass-through branch never sees it. -/
theorem spatial_filter_allnan_slice_not_passthrough_cex :
    (cube_c6 0 0 0).isNone = true ∧
    (spatial_low_pass_filter cube_c6 params_c6 interp_c6 alpha_c6 1 1 0 0 0).isSome = true := by
  constructor
  · rfl
  · have hfill : (if params_c6.nanfill = 0
        then fun a b => some ((cube_c6 a b 0).getD 0)
        else interpolate_nans_2d interp_c6 (fun a b => cube_c6 a b 0)) =
        fun _ _ => some 0 := by
      rw [if_pos (show params_c6.nanfill = 0 from rfl)]
      funext a b
      rfl
    unfold spatial_low_pass_filter
    rw [hfill]
    unfold _slpfilter
    rw [if_neg (fun h => by simpa using h 0 0)]
    unfold _slp_filter
    simp only [Option.isNone_some]
    rw [if_neg (by simp), if_neg (by rintro ⟨a, b, hab⟩; simp at hab)]
    rfl

/-- C6 amended: `_slpfilter` itself passes an entirely-NaN slice through
unchanged (no error is raised), but `spatial_low_pass_filter` NaN-fills the
cube before invoking it, so an entirely-NaN slice of the original input cube
is filled and filtered rather than passed through. -/
theorem slpfilter_allnan_passthrough {r c : ℕ} (phase : Fin r → Fin c → Option ℝ)
    (params : SlpParams) (alphaEst : (Fin r → Fin c → Option ℝ) → ℝ)
    (x_size y_size : ℝ)
    (h : ∀ i : Fin r, ∀ j : Fin c, (phase i j).isNone = true) :
    _slpfilter phase params alphaEst x_size y_size = phase := by
  unfold _slpfilter
  rw [if_pos h]

/-- Witness for the C6 amended claim: an entirely-NaN 2-by-2 slice is returned
unchanged by `_slpfilter`. -/
theorem slpfilter_allnan_passthrough_witness :
    (phase_c6w 0 0).isNone = true ∧
    _slpfilter phase_c6w params_c6 alpha_c6w 1 1 = phase_c6w :=
  ⟨rfl, slpfilter_allnan_passthrough phase_c6w params_c6 alpha_c6w 1 1 (fun _ _ => rfl)⟩

/- ---------------------------------------------------------------------
Theorems: claims C2 and C3 (reconstruction and persistence)
--------------------------------------------------------------------- -/

theorem list_range_map_sum (k : ℕ) (g : ℕ → ℝ) :
    ((List.range k).map g).sum = ∑ t in Finset.range k, g t := by
  induction k with
  | zero => simp
  | succ k ih =>
    rw [List.range_succ, List.map_append, List.sum_append, Finset.sum_range_succ, ih]
    simp

/-- NaN-propagating sum of an all-valid list is the arithmetic sum. -/
theorem npSum_eq_some (l : List (Option ℝ)) (h : ∀ x ∈ l, x.isSome = true) :
    npSum l = some ((l.map (fun o => o.getD 0)).sum) := by
  induction l with
  | nil => simp [npSum]
  | cons x xs ih =>
    rcases Option.isSome_iff_exists.mp (h x (List.mem_cons_self _ _)) with ⟨a, rfl⟩
    simp [npSum, ih (fun y hy => h y (List.mem_cons_of_mem _ hy))]

/-- NaN-propagating sum of a list containing a NaN is NaN. -/
theorem npSum_eq_none (l : List (Option ℝ)) (h : ∃ x ∈ l, x = none) :
    npSum l = none := by
  induction l with
  | nil =>
    rcases h with ⟨x, hx, _⟩
    cases hx
  | cons x xs ih =>
    rcases h with ⟨y, hy, hyn⟩
    rcases List.mem_cons.mp hy with h1 | h1
    · rw [h1] at hyn
      rw [hyn]
      simp [npSum]
    · cases x <;> simp [npSum, ih ⟨y, h1, hyn⟩]

/-- The slice sum computed by the source equals the spec-side sum of
increments over the half-open index range. -/
theorem npSum_pySlice_eq_ico (f : ℕ → Option ℝ) (m s : ℕ) :
    npSum (pySlice f m s) = sum_increments_Ico f m s := by
  by_cases h : ∀ t ∈ Finset.Ico m s, (f t).isSome = true
  · rw [sum_increments_Ico, if_pos h]
    rw [npSum_eq_some]
    · congr 1
      rw [pySlice, List.map_map]
      have hcomp : ((fun o : Option ℝ => o.getD 0) ∘ fun t => f (m + t)) =
          fun t => (f (m + t)).getD 0 := rfl
      rw [hcomp, list_range_map_sum (s - m) (fun t => (f (m + t)).getD 0)]
      exact (Finset.sum_Ico_eq_sum_range (fun t => (f t).getD 0) m s).symm
    · intro x hx
      rcases List.mem_map.mp hx with ⟨t, htr, rfl⟩
      apply h
      have htlt := List.mem_range.mp htr
      exact Finset.mem_Ico.mpr ⟨Nat.le_add_right _ _, by omega⟩
  · rw [sum_increments_Ico, if_neg h]
    push_neg at h
    obtain ⟨t, htI, hts⟩ := h
    obtain ⟨hmt, hts'⟩ := Finset.mem_Ico.mp htI
    apply npSum_eq_none
    refine ⟨f t, ?_, Option.not_isSome_iff_eq_none.mp hts⟩
    rw [pySlice]
    apply List.mem_map.mpr
    refine ⟨t - m, List.mem_range.mpr (by omega), ?_⟩
    congr 1
    omega

/-- C2: the i-th interferogram in key-sorted order receives, at every pixel,
the reconstructed corrected phase equal to the sum of time-series-cube
increments over the half-open epoch index range from its master index to its
slave index. -/
theorem ts_to_ifgs_phase_eq_ico_sum (tsincr : P → ℕ → Option ℝ)
    (preread : List (ℕ × PrereadIfg)) (nIdx : List ℕ) (i : ℕ)
    (h : i < ((sortByKey preread).map Prod.snd).length) (p : P) :
    ((ts_to_ifgs_phases tsincr preread nIdx).getD i (0, fun _ => none)).2 p =
      sum_increments_Ico (tsincr p) (nIdx.getD i 0)
        (nIdx.getD (((sortByKey preread).map Prod.snd).length + i) 0) := by
  unfold ts_to_ifgs_phases
  rw [List.getD_eq_getElem?_getD, List.getElem?_map, List.getElem?_range h]
  exact npSum_pySlice_eq_ico (tsincr p) _ _

/-- Witness for C2: two interferograms sorted into key order 4, 7; the first
one sums increments over the range [0, 2). -/
theorem ts_to_ifgs_phase_eq_ico_sum_witness :
    (0 : ℕ) < ((sortByKey preread_c2).map Prod.snd).length ∧
    ((ts_to_ifgs_phases ts_c2 preread_c2 nIdx_c2).getD 0 (0, fun _ => none)).2 () =
      sum_increments_Ico (ts_c2 ()) (nIdx_c2.getD 0 0)
        (nIdx_c2.getD (((sortByKey preread_c2).map Prod.snd).length + 0) 0) :=
  ⟨by decide, ts_to_ifgs_phase_eq_ico_sum ts_c2 preread_c2 nIdx_c2 0 (by decide) ()⟩

/-- C3: persisting a corrected interferogram overwrites exactly the pixels
non-NaN in the stored original phase with the reconstructed phase, leaves
originally-NaN pixels NaN, and sets the correction-status tag to
"APS-removed" on the persisted raster. -/
theorem save_aps_corrected_phase_spec (ifg : IfgRaster P)
    (phase : P → Option ℝ) (p : P) :
    ((ifg.phase_data p).isSome = true →
      (_save_aps_corrected_phase ifg phase).phase_data p = phase p) ∧
    (ifg.phase_data p = none →
      (_save_aps_corrected_phase ifg phase).phase_data p = none) ∧
    (_save_aps_corrected_phase ifg phase).correctionTag = some APS_REMOVED := by
  refine ⟨?_, ?_, rfl⟩
  · intro h
    simp [_save_aps_corrected_phase, h]
  · intro h
    simp [_save_aps_corrected_phase, h]

/-- Witness for C3: the valid pixel is overwritten, the NaN pixel stays NaN,
and the tag is set. -/
theorem save_aps_corrected_phase_spec_witness :
    (_save_aps_corrected_phase ifg_c3 phase_c3).phase_data true = phase_c3 true ∧
    (_save_aps_corrected_phase ifg_c3 phase_c3).phase_data false = none ∧
    (_save_aps_corrected_phase ifg_c3 phase_c3).correctionTag = some APS_REMOVED :=
  ⟨(save_aps_corrected_phase_spec ifg_c3 phase_c3 true).1 (by decide),
    (save_aps_corrected_phase_spec ifg_c3 phase_c3 false).2.1 rfl,
    (save_aps_corrected_phase_spec ifg_c3 phase_c3 false).2.2⟩

/- ---------------------------------------------------------------------
Theorems: claim C7 (idempotency short-circuit of the wrapper)
--------------------------------------------------------------------- -/

/-- C7: when every interferogram already carries the "APS-removed" tag, the
correction wrapper returns immediately after the status check: the run is
reported as skipped, no raster is modified and the time series is not
computed.  Moreover any run that does perform the correction leaves every
raster tagged "APS-removed", so a second run after a successful first run is
skipped. -/
theorem wrap_aps_skip_when_all_tagged {r c n : ℕ} (paths : List ℕ)
    (store : ℕ → IfgRaster (Fin r × Fin c))
    (tsincr : Fin r → Fin c → Fin n → Option ℝ)
    (preread : List (ℕ × PrereadIfg)) (nIdx : List ℕ)
    (spans : ℕ → ℝ) (tcutoff : ℝ) (tmethod : ℤ) (threshold : ℕ)
    (sparams : SlpParams)
    (interp : (Fin r → Fin c → Option ℝ) → Fin r → Fin c → Option ℝ)
    (alphaEst : (Fin r → Fin c → Option ℝ) → ℝ)
    (x_size y_size : ℝ) :
    ((∀ p ∈ paths, (store p).correctionTag = some APS_REMOVED) →
      _wrap_spatio_temporal_filter true paths store tsincr preread nIdx spans
          tcutoff tmethod threshold sparams interp alphaEst x_size y_size =
        ⟨WrapStatus.skipped, paths.map (fun p => (p, store p)), false⟩) ∧
    (check_correction_status (paths.map store) = false →
      ∀ x ∈ (_wrap_spatio_temporal_filter true paths store tsincr preread nIdx
          spans tcutoff tmethod threshold sparams interp alphaEst
          x_size y_size).rasters,
        x.2.correctionTag = some APS_REMOVED) := by
  constructor
  · intro h
    unfold _wrap_spatio_temporal_filter
    rw [if_neg (by simp), if_pos]
    unfold check_correction_status
    rw [List.all_eq_true]
    intro x hx
    rcases List.mem_map.mp hx with ⟨q, hq, rfl⟩
    exact beq_iff_eq.mpr (h q hq)
  · intro hch x hx
    unfold _wrap_spatio_temporal_filter at hx
    rw [if_neg (by simp), if_neg (by simp [hch])] at hx
    change x ∈ spatio_temporal_filter tsincr preread nIdx store spans tcutoff
      tmethod threshold sparams interp alphaEst x_size y_size at hx
    unfold spatio_temporal_filter _ts_to_ifgs at hx
    rcases List.mem_map.mp hx with ⟨pr, _, rfl⟩
    rfl

/-- Witness for C7: one already-tagged interferogram, APS estimation on; the
run is skipped with the raster untouched and no time-series computation. -/
theorem wrap_aps_skip_when_all_tagged_witness :
    _wrap_spatio_temporal_filter true [0] store_c7 cube_c7 preread_c7 [0, 1]
        (fun k => (k : ℝ)) 1 1 1 params_c7 interp_c7 alpha_c7 1 1 =
      ⟨WrapStatus.skipped, [0].map (fun p => (p, store_c7 p)), false⟩ :=
  (wrap_aps_skip_when_all_tagged [0] store_c7 cube_c7 preread_c7 [0, 1]
      (fun k => (k : ℝ)) 1 1 1 params_c7 interp_c7 alpha_c7 1 1).1
    (fun _ _ => rfl)

/- ---------------------------------------------------------------------
Theorems: claim C8 (assembly failure conditions)
--------------------------------------------------------------------- -/

/-- When every present tile matches the broadcast epoch count but some tile
result is absent, the tile loop fails with the missing-scratch-data error. -/
theorem tiles_loop_missing (scratch : ℕ → Option TileResult) (nvels i : ℕ)
    (tiles : List Tile) :
    ∀ out : AssemblyCube,
      (∀ t ∈ tiles, ∀ res, scratch t.index = some res → res.epochs = nvels) →
      (∃ t ∈ tiles, scratch t.index = none) →
      assemble_tiles_loop scratch nvels i tiles out =
        Except.error AssemblyError.missingScratchData := by
  induction tiles with
  | nil =>
    intro out _ hex
    rcases hex with ⟨t, ht, _⟩
    cases ht
  | cons t ts ih =>
    intro out hall hex
    cases hsc : scratch t.index with
    | none => simp [assemble_tiles_loop, assemble_tile_step, hsc]
    | some res =>
      have hep : res.epochs = nvels := hall t (List.mem_cons_self _ _) res hsc
      simp only [assemble_tiles_loop, assemble_tile_step, hsc, if_pos hep]
      apply ih
      · intro t2 ht2 res2 h2
        exact hall t2 (List.mem_cons_of_mem _ ht2) res2 h2
      · rcases hex with ⟨t2, ht2, h2⟩
        rcases List.mem_cons.mp ht2 with h3 | h3
        · rw [h3, hsc] at h2
          cases h2
        · exact ⟨t2, h3, h2⟩

/-- When every tile result is present but some tile's epoch count disagrees
with the broadcast value, the tile loop fails with the shape-mismatch
error. -/
theorem tiles_loop_mismatch (scratch : ℕ → Option TileResult) (nvels i : ℕ)
    (tiles : List Tile) :
    ∀ out : AssemblyCube,
      (∀ t ∈ tiles, (scratch t.index).isSome = true) →
      (∃ t ∈ tiles, ∃ res, scratch t.index = some res ∧ res.epochs ≠ nvels) →
      assemble_tiles_loop scratch nvels i tiles out =
        Except.error AssemblyError.shapeMismatch := by
  induction tiles with
  | nil =>
    intro out _ hex
    rcases hex with ⟨t, ht, _⟩
    cases ht
  | cons t ts ih =>
    intro out hall hex
    cases hsc : scratch t.index with
    | none =>
      have := hall t (List.mem_cons_self _ _)
      rw [hsc] at this
      cases this
    | some res =>
      by_cases hep : res.epochs = nvels
      · simp only [assemble_tiles_loop, assemble_tile_step, hsc, if_pos hep]
        apply ih
        · intro t2 ht2
          exact hall t2 (List.mem_cons_of_mem _ ht2)
        · rcases hex with ⟨t2, ht2, res2, h2, hne⟩
          rcases List.mem_cons.mp ht2 with h3 | h3
          · rw [h3, hsc] at h2
            cases h2
            exact absurd hep hne
          · exact ⟨t2, h3, res2, h2, hne⟩
      · simp [assemble_tiles_loop, assemble_tile_step, hsc, hep]

/-- An error produced by the inner tile loop at every epoch propagates out of
the epoch loop whenever at least one epoch is processed. -/
theorem epochs_loop_error (tiles : List Tile) (scratch : ℕ → Option TileResult)
    (nvels : ℕ) (e : AssemblyError)
    (h : ∀ i : ℕ, ∀ out : AssemblyCube,
      assemble_tiles_loop scratch nvels i tiles out = Except.error e) :
    ∀ l : List ℕ, ∀ out : AssemblyCube, l ≠ [] →
      assemble_epochs_loop tiles scratch nvels l out = Except.error e := by
  intro l
  cases l with
  | nil =>
    intro out hne
    exact absurd rfl hne
  | cons i rest =>
    intro out _
    simp [assemble_epochs_loop, h i out]

/-- C8: assembling the full-resolution cube fails with the
missing-scratch-data error when a tile's persisted result is absent, and
fails with the shape-mismatch error when every tile is present but some
tile's epoch count disagrees with the broadcast value; in either case no
cube is produced. -/
theorem assemble_tsincr_error_conditions (tiles : List Tile)
    (scratch : ℕ → Option TileResult) (nvels : ℕ) (h0 : 0 < nvels) :
    ((∀ t ∈ tiles, ∀ res, scratch t.index = some res → res.epochs = nvels) →
      (∃ t ∈ tiles, scratch t.index = none) →
      _assemble_tsincr tiles scratch nvels =
        Except.error AssemblyError.missingScratchData) ∧
    ((∀ t ∈ tiles, (scratch t.index).isSome = true) →
      (∃ t ∈ tiles, ∃ res, scratch t.index = some res ∧ res.epochs ≠ nvels) →
      _assemble_tsincr tiles scratch nvels =
        Except.error AssemblyError.shapeMismatch) := by
  have hne : List.range nvels ≠ [] := by
    intro hcon
    have := List.length_range nvels
    rw [hcon] at this
    simp at this
    omega
  constructor
  · intro hall hex
    unfold _assemble_tsincr
    exact epochs_loop_error tiles scratch nvels _
      (fun i out => tiles_loop_missing scratch nvels i tiles out hall hex)
      (List.range nvels) _ hne
  · intro hall hex
    unfold _assemble_tsincr
    exact epochs_loop_error tiles scratch nvels _
      (fun i out => tiles_loop_mismatch scratch nvels i tiles out hall hex)
      (List.range nvels) _ hne

/-- Witness for C8: a single tile whose scratch result is absent makes the
assembly of a 1-epoch cube fail with the missing-scratch-data error. -/
theorem assemble_tsincr_error_conditions_witness :
    (0 : ℕ) < 1 ∧
    _assemble_tsincr [tile_c8] scratch_c8 1 =
      Except.error AssemblyError.missingScratchData :=
  ⟨Nat.zero_lt_one,
    (assemble_tsincr_error_conditions [tile_c8] scratch_c8 1 Nat.zero_lt_one).1
      (fun t _ res hres => by cases hres)
      ⟨tile_c8, List.mem_cons_self _ _, rfl⟩⟩
